import Mathlib

/-!
Shallow embedding of the financial-statement extraction pipeline from
`app.py` (single-module Flask application).  Text is modeled as
`List Char` (Python `str` over the ASCII fragment exercised by the
pipeline: `str.lower`, `str.strip`, `\d`, `\w` and `\b` are modeled on
ASCII characters).  Numeric values are modeled as `ℚ`: every decimal
literal produced by the tokenizer is an exact decimal, on which CPython
`float` conversion is exact for the magnitudes involved; absence
(`None`) is `Option.none`.
-/

namespace App

/-- Python `str.lower()` on the ASCII fragment. -/
def toLowerL (l : List Char) : List Char := l.map Char.toLower

/-- Whitespace characters removed by Python `str.strip()` (ASCII fragment). -/
def isPyWs (c : Char) : Bool :=
  c = ' ' || c = '\t' || c = '\n' || c = '\r' || c = '\x0b' || c = '\x0c'

/-- Python `str.strip()`. -/
def stripL (l : List Char) : List Char :=
  ((l.dropWhile isPyWs).reverse.dropWhile isPyWs).reverse

/-- Python `str.split(sep)` for a single-character separator. -/
def splitL (sep : Char) : List Char → List (List Char)
  | [] => [[]]
  | c :: cs =>
    if c = sep then [] :: splitL sep cs
    else
      match splitL sep cs with
      | [] => [[c]]
      | h :: t => (c :: h) :: t

/-- Prefix test specialised to characters (Boolean, executable). -/
def isPrefixL : List Char → List Char → Bool
  | [], _ => true
  | _ :: _, [] => false
  | a :: as, b :: bs => a = b && isPrefixL as bs

/-- Python substring containment `needle in hay` (Boolean, executable). -/
def isInfixL (needle : List Char) : List Char → Bool
  | [] => needle.isEmpty
  | c :: cs => isPrefixL needle (c :: cs) || isInfixL needle cs

/-- Python `" ".join(all_text)` from `detect_currency` / `detect_years`. -/
def joinSpace (pages : List (List Char)) : List Char :=
  List.intercalate [' '] pages

/-- Substring containment of a string literal in a character list. -/
def containsSub (needle : String) (hay : List Char) : Bool :=
  isInfixL needle.toList hay

/-- Table `LINE_ITEM_ALIASES` from `app.py`, in declaration order (Python dicts
iterate in insertion order). -/
def LINE_ITEM_ALIASES : List (String × List String) :=
  [ ("Revenue",
      ["revenue", "net sales", "total revenue", "net revenue",
       "sales", "total net revenue", "total sales", "gross revenue"]),
    ("Cost of Goods Sold",
      ["cost of goods sold", "cost of sales", "cost of revenue",
       "cogs", "cost of products sold"]),
    ("Gross Profit",
      ["gross profit", "gross margin", "gross income"]),
    ("Operating Expenses",
      ["operating expenses", "operating costs", "total operating expenses",
       "selling general and administrative", "sg&a", "operating expenditure"]),
    ("Research & Development",
      ["research and development", "r&d", "r & d expenses",
       "research & development expenses"]),
    ("Operating Income",
      ["operating income", "operating profit", "income from operations",
       "profit from operations", "ebit"]),
    ("Interest Expense",
      ["interest expense", "finance costs", "interest cost",
       "interest charges", "net interest expense"]),
    ("Profit Before Tax",
      ["profit before tax", "pbt", "income before tax",
       "earnings before tax", "pre-tax income", "pretax income"]),
    ("Tax Expense",
      ["income tax", "tax expense", "provision for income taxes",
       "income tax expense", "income taxes"]),
    ("Net Income",
      ["net income", "net profit", "profit after tax", "pat",
       "net earnings", "profit for the year", "profit for the period",
       "net income attributable", "net profit after tax"]),
    ("Depreciation & Amortization",
      ["depreciation", "amortization", "depreciation and amortization",
       "d&a", "depreciation & amortization"]),
    ("EBITDA",
      ["ebitda", "earnings before interest tax depreciation amortization"]) ]

/-- The canonical line items, in declaration order. -/
def canonicalItems : List String := LINE_ITEM_ALIASES.map Prod.fst

/-- Inner loop of `match_line_item`: `for alias in aliases: if alias in
line_lower: return canonical` succeeds iff some alias is a substring. -/
def aliasHit (line_lower : List Char) (aliases : List String) : Bool :=
  aliases.any (fun a => isInfixL a.toList line_lower)

/-- Outer loop of `match_line_item` over the alias table. -/
def matchGo (line_lower : List Char) : List (String × List String) → Option String
  | [] => none
  | (canonical, aliases) :: rest =>
    if aliasHit line_lower aliases then some canonical
    else matchGo line_lower rest

/-- Function `match_line_item` from `app.py`. -/
def match_line_item (line_lower : List Char) : Option String :=
  matchGo line_lower LINE_ITEM_ALIASES

/-- Year field of a record: a Python `int` or the string `"Unknown"`. -/
inductive YearV : Type
  | year (y : ℕ)
  | unknown
deriving DecidableEq, Repr

/-- One extracted row: the dict
`{ line_item, year, value, confidence }` built in `extract_financial_lines`,
`deduplicate_results` and `fill_missing_items`. -/
structure Record : Type where
  line_item : String
  year : YearV
  value : Option ℚ
  confidence : String
deriving DecidableEq, Repr

/-- The dict key `(row["line_item"], row["year"])` used by
`deduplicate_results`. -/
def keyOf (r : Record) : String × YearV := (r.line_item, r.year)

/-! ### Numeric token parsing (`parse_number`) -/

/-- Characters allowed inside the parenthesis pattern `^\([\d,\.]+\)$`. -/
def numChar3 (c : Char) : Bool := c.isDigit || c = ',' || c = '.'

/-- The regex test `re.match(r'^\([\d,\.]+\)$', raw)` from `parse_number`. -/
def parenWrapped (l : List Char) : Bool :=
  match l with
  | c :: rest =>
    c = '(' && rest.getLast? = some ')' && !(rest.dropLast).isEmpty
      && (rest.dropLast).all numChar3
  | [] => false

/-- Numeric value of a list of ASCII digits. -/
def digitsVal (ds : List Char) : ℕ :=
  ds.foldl (fun a c => a * 10 + (c.toNat - 48)) 0

/-- CPython `float(s)` on an unsigned decimal literal `digits [. digits]`
(either side of the point may be empty, but not both).  Exponents,
underscores and `inf`/`nan` spellings lie outside the fragment produced by
the extraction tokenizer and are not modeled; conversion failure is `none`. -/
def pyFloatCore (cs : List Char) : Option ℚ :=
  let ip := cs.takeWhile Char.isDigit
  let rest := cs.dropWhile Char.isDigit
  match rest with
  | [] => if ip.isEmpty then none else some (digitsVal ip : ℚ)
  | '.' :: rest2 =>
    let fp := rest2.takeWhile Char.isDigit
    let rest3 := rest2.dropWhile Char.isDigit
    if rest3.isEmpty && !(ip.isEmpty && fp.isEmpty) then
      some ((digitsVal ip : ℚ) + (digitsVal fp : ℚ) / (10 : ℚ) ^ fp.length)
    else none
  | _ => none

/-- CPython `float(s)` including an optional leading sign. -/
def pyFloat (cs : List Char) : Option ℚ :=
  match cs with
  | c :: rest =>
    if c = '-' then (pyFloatCore rest).map (fun q => -q)
    else if c = '+' then pyFloatCore rest
    else pyFloatCore cs
  | [] => none

/-- Function `parse_number` from `app.py`: empty is falsy, strip, negate a
parenthesised token, remove commas, convert (failure yields `None`). -/
def parse_number (rawIn : List Char) : Option ℚ :=
  if rawIn.isEmpty then none
  else
    pyFloat ((if parenWrapped (stripL rawIn) then
        '-' :: ((stripL rawIn).drop 1).dropLast
      else stripL rawIn).filter (fun c => c ≠ ','))

/-! ### Tokenizer: `re.findall(r'[\(\-]?[\d,]+(?:\.\d+)?\)?', line)` -/

/-- Character class `[\d,]`. -/
def isNumChar (c : Char) : Bool := c.isDigit || c = ','

/-- Optional fragment `(?:\.\d+)?`: greedy, skipped when no digit follows
the dot. -/
def takeFrac : List Char → List Char × List Char
  | '.' :: rest =>
    let ds := rest.takeWhile Char.isDigit
    if ds.isEmpty then ([], '.' :: rest)
    else ('.' :: ds, rest.dropWhile Char.isDigit)
  | l => ([], l)

/-- Optional fragment `\)?`. -/
def takeParen : List Char → List Char × List Char
  | ')' :: rest => ([')'], rest)
  | l => ([], l)

/-- The mandatory part `[\d,]+(?:\.\d+)?\)?` of the token regex. -/
def numCore (cs : List Char) : Option (List Char × List Char) :=
  let ds := cs.takeWhile isNumChar
  if ds.isEmpty then none
  else
    let (f, r2) := takeFrac (cs.dropWhile isNumChar)
    let (p, r3) := takeParen r2
    some (ds ++ f ++ p, r3)

/-- Try the whole token regex at the current position.  The optional
leading `[\(\-]` only survives backtracking when a `[\d,]` follows. -/
def numToken : List Char → Option (List Char × List Char)
  | [] => none
  | c :: cs =>
    if (c = '(' || c = '-') &&
        (match cs with | c2 :: _ => isNumChar c2 | [] => false) then
      (numCore cs).map (fun tr => (c :: tr.1, tr.2))
    else numCore (c :: cs)

/-- Scan of `re.findall`: try a match at each position, consume it on
success, advance one character on failure (fuelled by the input length:
every step consumes at least one character). -/
def scanTokensGo : ℕ → List Char → List (List Char)
  | 0, _ => []
  | _ + 1, [] => []
  | fuel + 1, c :: cs =>
    match numToken (c :: cs) with
    | some (t, r) => t :: scanTokensGo fuel r
    | none => scanTokensGo fuel cs

/-- All numeric tokens of a line (`numbers_raw` before the year filter). -/
def scanTokens (l : List Char) : List (List Char) :=
  scanTokensGo l.length l

/-- The filter `re.match(r'^\d{4}$', n.replace(",", ""))`: the token is
dropped as a stray year iff its comma-stripped form is exactly 4 digits. -/
def isStrayYear (t : List Char) : Bool :=
  let s := t.filter (fun c => c ≠ ',')
  s.length = 4 && s.all Char.isDigit

/-- List `numbers_raw` after the stray-year filter, for a (stripped) line. -/
def keptNumbers (line : List Char) : List (List Char) :=
  (scanTokens line).filter (fun t => !isStrayYear t)

/-! ### Year detection (`detect_years` and the cap applied in `upload`) -/

/-- Python regex `\w` on the ASCII fragment (for `\b` boundaries). -/
def isWordChar (c : Char) : Bool := c.isAlphanum || c = '_'

/-- A match of `\b((?:19|20)\d{2})\b` starting at the head of the list
(the preceding boundary is checked by the caller). -/
def yearAt : List Char → Option ℕ
  | c1 :: c2 :: c3 :: c4 :: rest =>
    if ((c1 = '1' && c2 = '9') || (c1 = '2' && c2 = '0')) && c3.isDigit
        && c4.isDigit
        && (match rest with | [] => true | c :: _ => !isWordChar c) then
      some (digitsVal [c1, c2, c3, c4])
    else none
  | _ => none

/-- Scan every position; the Boolean records whether the previous
character is a word character (so `\b` holds exactly when it is false). -/
def collectGo : Bool → List Char → List ℕ
  | _, [] => []
  | prevWord, c :: cs =>
    (if prevWord then [] else (yearAt (c :: cs)).toList) ++
      collectGo (isWordChar c) cs

/-- All matches of `re.findall(r'\b((?:19|20)\d{2})\b', combined)` as
numbers.  Two boundary-delimited matches can never overlap, so the set of
matches equals the set of positions where the pattern applies. -/
def collectYears (l : List Char) : List ℕ :=
  collectGo false l

/-- Python `sorted(set(xs))` for a list of naturals. -/
def pySortedSet (l : List ℕ) : List ℕ :=
  List.insertionSort (fun a b => a ≤ b) l.dedup

/-- Function `detect_years` from `app.py`: matches of the year pattern,
deduplicated and sorted, then filtered to `1990 ≤ y ≤ 2030`. -/
def detect_years (pages : List (List Char)) : List ℕ :=
  (pySortedSet (collectYears (joinSpace pages))).filter
    (fun y => 1990 ≤ y && y ≤ 2030)

/-- The cap applied in `upload`:
`sorted(detected_years)[-5:] if detected_years else []`. -/
def capYears (dy : List ℕ) : List ℕ :=
  if dy.isEmpty then []
  else
    (List.insertionSort (fun a b => a ≤ b) dy).drop
      ((List.insertionSort (fun a b => a ≤ b) dy).length - 5)

/-- The composed fiscal-year detection step of the pipeline. -/
def detectedYears (pages : List (List Char)) : List ℕ :=
  capYears (detect_years pages)

/-! ### Currency / unit detection (`detect_currency`) -/

/-- USD keyword/symbol test of `detect_currency`. -/
def usdHit (combined : List Char) : Bool :=
  containsSub "usd" combined || containsSub "u.s. dollar" combined
    || containsSub "$" combined

/-- INR keyword/symbol test of `detect_currency`. -/
def inrHit (combined : List Char) : Bool :=
  containsSub "inr" combined || containsSub "₹" combined
    || containsSub "indian rupee" combined

/-- EUR keyword/symbol test of `detect_currency`. -/
def eurHit (combined : List Char) : Bool :=
  containsSub "eur" combined || containsSub "euro" combined
    || containsSub "€" combined

/-- GBP keyword/symbol test of `detect_currency`. -/
def gbpHit (combined : List Char) : Bool :=
  containsSub "gbp" combined || containsSub "£" combined
    || containsSub "british pound" combined

/-- CNY keyword/symbol test of `detect_currency`. -/
def cnyHit (combined : List Char) : Bool :=
  containsSub "cny" combined || containsSub "rmb" combined
    || containsSub "yuan" combined

/-- The currency branch of `detect_currency`: first match wins in the
fixed order USD, INR, EUR, GBP, CNY. -/
def detectCurrencyStr (combined : List Char) : String :=
  if usdHit combined then "USD"
  else if inrHit combined then "INR"
  else if eurHit combined then "EUR"
  else if gbpHit combined then "GBP"
  else if cnyHit combined then "CNY"
  else "Unclear"

/-- The unit branch of `detect_currency`. -/
def detectUnitsStr (combined : List Char) : String :=
  if containsSub "in crores" combined || containsSub "crore" combined then
    "Crores"
  else if containsSub "in millions" combined
      || containsSub "million" combined then "Millions"
  else if containsSub "in thousands" combined
      || containsSub "thousand" combined then "Thousands"
  else if containsSub "in billions" combined
      || containsSub "billion" combined then "Billions"
  else "Unclear"

/-- Function `detect_currency` from `app.py`: both scans run over the
lowercased joined text; returns `(currency, units)`. -/
def detect_currency (pages : List (List Char)) : String × String :=
  (detectCurrencyStr (toLowerL (joinSpace pages)),
   detectUnitsStr (toLowerL (joinSpace pages)))

/-! ### Line-level extraction (`extract_financial_lines`) -/

/-- Python `sorted(detected_years, reverse=True)`. -/
def sortDesc (l : List ℕ) : List ℕ :=
  List.insertionSort (fun a b => b ≤ a) l

/-- Body of the per-line loop of `extract_financial_lines`: strip, skip
empty lines, alias-match the lowercased line, tokenize, filter stray
years, then the three year-alignment branches.  In the second branch the
Python guard `len(numbers_raw) >= 1` is implied by the earlier emptiness
check. -/
def processLine (rawLine : List Char) (detected_years : List ℕ) : List Record :=
  if (stripL rawLine).isEmpty then []
  else
    match match_line_item (toLowerL (stripL rawLine)) with
    | none => []
    | some canonical =>
      if (keptNumbers (stripL rawLine)).isEmpty then
        [{ line_item := canonical, year := YearV.unknown, value := none,
           confidence := "Missing" }]
      else if !detected_years.isEmpty
          && (keptNumbers (stripL rawLine)).length = detected_years.length then
        ((sortDesc detected_years).zip (keptNumbers (stripL rawLine))).map
          (fun yrv =>
            { line_item := canonical, year := YearV.year yrv.1,
              value := parse_number yrv.2,
              confidence := if (parse_number yrv.2).isSome then "OK"
                            else "Low Confidence" })
      else if !detected_years.isEmpty then
        (keptNumbers (stripL rawLine)).enum.map (fun iv =>
          { line_item := canonical,
            year := if iv.1 < (sortDesc detected_years).length then
                      YearV.year ((sortDesc detected_years).getD iv.1 0)
                    else YearV.unknown,
            value := parse_number iv.2,
            confidence := if (parse_number iv.2).isSome then "OK"
                          else "Low Confidence" })
      else
        (keptNumbers (stripL rawLine)).map (fun rawVal =>
          { line_item := canonical, year := YearV.unknown,
            value := parse_number rawVal,
            confidence := if (parse_number rawVal).isSome then "OK"
                          else "Low Confidence" })

/-- Function `extract_financial_lines` from `app.py`: every page, split into
lines, processed in order. -/
def extract_financial_lines (pages_text : List (List Char))
    (detected_years : List ℕ) : List Record :=
  pages_text.flatMap (fun page_text =>
    (splitL '\n' page_text).flatMap (fun line => processLine line detected_years))

/-! ### Deduplication (`deduplicate_results`) -/

/-- Dict `priority` of `deduplicate_results` with the `.get(…, 9)` default. -/
def priorityOf (c : String) : ℕ :=
  if c = "OK" then 0
  else if c = "Low Confidence" then 1
  else if c = "Missing" then 2
  else if c = "Review Required" then 3
  else 9

/-- The update rule of `deduplicate_results`: a later record replaces
the kept one only when its confidence is strictly better. -/
def pickBetter (b r : Record) : Record :=
  if priorityOf r.confidence < priorityOf b.confidence then r else b

/-- Lookup in the insertion-ordered dict `best`. -/
def lookupKey (k : String × YearV) :
    List ((String × YearV) × Record) → Option Record
  | [] => none
  | (k', r) :: rest => if k' = k then some r else lookupKey k rest

/-- In-place value replacement in the insertion-ordered dict `best`
(Python dicts keep the original key position on assignment). -/
def replaceKey (k : String × YearV) (r : Record) :
    List ((String × YearV) × Record) → List ((String × YearV) × Record)
  | [] => []
  | (k', r') :: rest =>
    if k' = k then (k', r) :: rest else (k', r') :: replaceKey k r rest

/-- The loop of `deduplicate_results` over the candidate list, carrying
the dict `best` as an insertion-ordered association list. -/
def dedupeAux : List Record → List ((String × YearV) × Record) →
    List ((String × YearV) × Record)
  | [], best => best
  | r :: rs, best =>
    match lookupKey (keyOf r) best with
    | none => dedupeAux rs (best ++ [(keyOf r, r)])
    | some b =>
      if priorityOf r.confidence < priorityOf b.confidence then
        dedupeAux rs (replaceKey (keyOf r) r best)
      else dedupeAux rs best

/-- Function `deduplicate_results` from `app.py`: `list(best.values())`. -/
def deduplicate_results (results : List Record) : List Record :=
  (dedupeAux results []).map Prod.snd

/-! ### Gap filling (`fill_missing_items`) -/

/-- The year list used for placeholders:
`detected_years if detected_years else ["Unknown"]`. -/
def yearsToUse (detected_years : List ℕ) : List YearV :=
  if detected_years.isEmpty then [YearV.unknown]
  else detected_years.map YearV.year

/-- A synthesized placeholder row. -/
def mkMissing (canonical : String) (yr : YearV) : Record :=
  { line_item := canonical, year := yr, value := none, confidence := "Missing" }

/-- Function `fill_missing_items` from `app.py`: for every canonical item absent
from the results, append one placeholder per year (`found_items` is
computed before any row is appended). -/
def fill_missing_items (results : List Record) (detected_years : List ℕ) :
    List Record :=
  results ++
    (canonicalItems.filter
        (fun c => !(results.map Record.line_item).contains c)).flatMap
      (fun c => (yearsToUse detected_years).map (fun yr => mkMissing c yr))

/-- The record-set pipeline of the `upload` route:
extraction, deduplication, gap filling. -/
def pipeline (pages_text : List (List Char)) (detected_years : List ℕ) :
    List Record :=
  fill_missing_items
    (deduplicate_results (extract_financial_lines pages_text detected_years))
    detected_years

/-! ### Helper lemmas about `parse_number` -/

lemma numChar3_not_ws {c : Char} (h : numChar3 c = true) : isPyWs c = false := by
  by_contra hws
  rw [Bool.not_eq_false] at hws
  simp only [isPyWs, Bool.or_eq_true, decide_eq_true_eq] at hws
  rcases hws with ((((h1 | h1) | h1) | h1) | h1) | h1 <;> subst h1 <;> simp [numChar3] at h

lemma dropWhile_eq_self_of_not {l : List Char} (p : Char → Bool)
    (h : ∀ c ∈ l, p c = false) : l.dropWhile p = l := by
  cases l with
  | nil => rfl
  | cons c cs =>
    have hc : p c = false := h c (List.mem_cons_self c cs)
    simp [List.dropWhile_cons, hc]

lemma stripL_eq_self {l : List Char} (h : ∀ c ∈ l, isPyWs c = false) :
    stripL l = l := by
  unfold stripL
  rw [dropWhile_eq_self_of_not _ h,
    dropWhile_eq_self_of_not _ (fun c hc => h c (List.mem_reverse.mp hc)),
    List.reverse_reverse]

lemma pyFloat_eq_core {t : List Char} (h : ∀ c ∈ t, numChar3 c = true) :
    pyFloat t = pyFloatCore t := by
  cases t with
  | nil => rfl
  | cons c cs =>
    have hc : numChar3 c = true := h c (List.mem_cons_self c cs)
    have h1 : ¬(c = '-') := by rintro rfl; simp [numChar3] at hc
    have h2 : ¬(c = '+') := by rintro rfl; simp [numChar3] at hc
    simp [pyFloat, h1, h2]

lemma parenWrapped_concat {ds : List Char} (hne : ds ≠ [])
    (hall : ds.all numChar3 = true) :
    parenWrapped ('(' :: (ds ++ [')'])) = true := by
  simp [parenWrapped, List.getLast?_concat, List.dropLast_concat, hne, hall,
    List.isEmpty_iff]

lemma parenWrapped_eq_false_of_numChar3 {ds : List Char}
    (hall : ∀ c ∈ ds, numChar3 c = true) : parenWrapped ds = false := by
  cases ds with
  | nil => rfl
  | cons c cs =>
    have hc : numChar3 c = true := hall c (List.mem_cons_self c cs)
    have h1 : ¬(c = '(') := by rintro rfl; simp [numChar3] at hc
    simp [parenWrapped, h1]

/-- C6: `parse_number` maps `"(1,234.5)"` to `-1234.5`, `"1,234.5"` to
`1234.5` and `"abc"` to `none`; and in general a token wrapped in matching
parentheses around `[\d,\.]+` content is parsed to the negation of the
unwrapped token (negation applied before comma-stripping and float
conversion, failures yielding `none` on both sides). -/
theorem c6_parse_number :
    parse_number "(1,234.5)".toList = some (-1234.5 : ℚ)
  ∧ parse_number "1,234.5".toList = some (1234.5 : ℚ)
  ∧ parse_number "abc".toList = none
  ∧ ∀ ds : List Char, ds ≠ [] → ds.all numChar3 = true →
      parse_number ('(' :: (ds ++ [')'])) = (parse_number ds).map (fun q => -q) := by
  refine ⟨?_, ?_, by decide, ?_⟩
  · rw [show parse_number "(1,234.5)".toList
        = some (-((1234 : ℚ) + (5 : ℚ) / (10 : ℚ) ^ 1)) from rfl]
    norm_num
  · rw [show parse_number "1,234.5".toList
        = some ((1234 : ℚ) + (5 : ℚ) / (10 : ℚ) ^ 1) from rfl]
    norm_num
  intro ds hne hall
  have hallm : ∀ c ∈ ds, numChar3 c = true := List.all_eq_true.mp hall
  have hws : ∀ c ∈ ('(' :: (ds ++ [')'])), isPyWs c = false := by
    intro c hc
    rcases List.mem_cons.mp hc with rfl | hc2
    · rfl
    · rcases List.mem_append.mp hc2 with h3 | h3
      · exact numChar3_not_ws (hallm c h3)
      · have hc' : c = ')' := by simpa using h3
        subst hc'; rfl
  have hws2 : ∀ c ∈ ds, isPyWs c = false := fun c hc => numChar3_not_ws (hallm c hc)
  have hfil : ∀ c ∈ ds.filter (fun c => c ≠ ','), numChar3 c = true :=
    fun c hc => hallm c (List.mem_filter.mp hc).1
  unfold parse_number
  rw [stripL_eq_self hws, stripL_eq_self hws2,
    parenWrapped_concat hne hall, parenWrapped_eq_false_of_numChar3 hallm]
  simp only [List.isEmpty_cons, Bool.false_eq_true, if_false, if_true,
    List.isEmpty_eq_true, hne, List.drop_succ_cons, List.drop_zero,
    List.dropLast_concat]
  rw [List.filter_cons_of_pos (by decide)]
  rw [show pyFloat ('-' :: ds.filter (fun c => c ≠ ',')) =
      (pyFloatCore (ds.filter (fun c => c ≠ ','))).map (fun q => -q) by
    simp [pyFloat]]
  rw [pyFloat_eq_core hfil]

/-- Witness for C6: the general parenthesis-negation clause at the
concrete token `(77)`. -/
theorem c6_parse_number_witness :
    parse_number ('(' :: (['7', '7'] ++ [')']))
      = (parse_number ['7', '7']).map (fun q => -q) :=
  c6_parse_number.2.2.2 ['7', '7'] (by decide) (by decide)

/-- C8: on a matched line from which zero numeric tokens survive the
stray-year filter, the extractor emits exactly one record: absent value,
confidence `Missing`, and year `Unknown` even when the detected year set
is non-empty. -/
theorem c8_zero_tokens (line : List Char) (years : List ℕ) (c : String)
    (hm : match_line_item (toLowerL (stripL line)) = some c)
    (ht : keptNumbers (stripL line) = []) :
    processLine line years
      = [{ line_item := c, year := YearV.unknown, value := none,
           confidence := "Missing" }] := by
  have hne : (stripL line).isEmpty = false := by
    by_contra h
    rw [Bool.not_eq_false, List.isEmpty_iff] at h
    rw [h, show match_line_item (toLowerL []) = none from by decide] at hm
    exact Option.noConfusion hm
  simp only [processLine, hne, Bool.false_eq_true, if_false, hm, ht,
    List.isEmpty_nil, if_true]

/-- Witness for C8: the heading line `Revenue` with a non-empty year set
yields the single `Missing` record at year `Unknown`. -/
theorem c8_zero_tokens_witness :
    processLine "Revenue".toList [2021]
      = [{ line_item := "Revenue", year := YearV.unknown, value := none,
           confidence := "Missing" }] :=
  c8_zero_tokens "Revenue".toList [2021] "Revenue" (by decide) (by decide)

/-- C3 (claim refuted at the failing input): the tokenizer finds the
tokens `1,500` and `1,200` on the line `Net Revenue  1,500  1,200`, but
the stray-year filter — which comma-strips each token before the 4-digit
test — excludes both, leaving no value candidates; a comma-separated
token is excluded exactly when its comma-stripped form is 4 digits. -/
theorem c3_token_filter_behavior :
    (scanTokens "Net Revenue  1,500  1,200".toList).map List.asString
        = ["1,500", "1,200"]
      ∧ isStrayYear "1,500".toList = true
      ∧ keptNumbers "Net Revenue  1,500  1,200".toList = []
      ∧ isStrayYear "1500".toList = true
      ∧ isStrayYear "150".toList = false
      ∧ isStrayYear "1500.5".toList = false := by decide

/-- C2 (claim refuted at the failing input): on the spec's end-to-end
page with detected years `[2021, 2022]`, the pipeline produces the Net
Income records the claim expects, but for Revenue it produces a single
`Missing` record at year `Unknown` instead of the expected OK records,
because `1,500` and `1,200` are comma-stripped to 4 digits and dropped as
stray years. -/
theorem c2_pipeline_behavior :
    ((pipeline ["Net Revenue  1,500  1,200\nNet Income  (50)  200\n".toList]
        [2021, 2022]).filter (fun r => r.line_item = "Revenue"))
        = [{ line_item := "Revenue", year := YearV.unknown, value := none,
             confidence := "Missing" }]
      ∧ ({ line_item := "Net Income", year := YearV.year 2022,
           value := some (-50 : ℚ), confidence := "OK" } : Record)
          ∈ pipeline ["Net Revenue  1,500  1,200\nNet Income  (50)  200\n".toList]
              [2021, 2022]
      ∧ ({ line_item := "Net Income", year := YearV.year 2021,
           value := some (200 : ℚ), confidence := "OK" } : Record)
          ∈ pipeline ["Net Revenue  1,500  1,200\nNet Income  (50)  200\n".toList]
              [2021, 2022]
      ∧ ({ line_item := "Revenue", year := YearV.year 2022,
           value := some (1500 : ℚ), confidence := "OK" } : Record)
          ∉ pipeline ["Net Revenue  1,500  1,200\nNet Income  (50)  200\n".toList]
              [2021, 2022]
      ∧ ({ line_item := "Revenue", year := YearV.year 2021,
           value := some (1200 : ℚ), confidence := "OK" } : Record)
          ∉ pipeline ["Net Revenue  1,500  1,200\nNet Income  (50)  200\n".toList]
              [2021, 2022] := by decide

/-- C1 is refuted: on a page whose year text appears on an unmatched line
and whose only matched line has no figures, the year set is `[2021]` and
`Revenue` is a canonical item, yet the final record set has no record at
all for the pair `(Revenue, 2021)` — the gap filler only covers items
absent entirely, and the extractor placed Revenue at year `Unknown`. -/
theorem c1_coverage_counterexample :
    detectedYears ["Fiscal year 2021\nRevenue".toList] = [2021]
      ∧ "Revenue" ∈ canonicalItems
      ∧ (pipeline ["Fiscal year 2021\nRevenue".toList]
            (detectedYears ["Fiscal year 2021\nRevenue".toList])).filter
          (fun r => keyOf r = ("Revenue", YearV.year 2021)) = [] := by decide

/-! ### Structural lemmas about the pipeline stages -/

lemma processLine_inv (line : List Char) (years : List ℕ) :
    ∀ r ∈ processLine line years, (r.value.isSome = true ↔ r.confidence = "OK") := by
  intro r hr
  unfold processLine at hr
  split at hr
  · exact absurd hr (List.not_mem_nil r)
  · split at hr
    · exact absurd hr (List.not_mem_nil r)
    · split at hr
      · rw [List.mem_singleton] at hr
        subst hr
        simp
      · split at hr
        · obtain ⟨yrv, _, rfl⟩ := List.mem_map.mp hr
          cases hp : parse_number yrv.2 <;> simp [hp]
        · split at hr
          · obtain ⟨iv, _, rfl⟩ := List.mem_map.mp hr
            cases hp : parse_number iv.2 <;> simp [hp]
          · obtain ⟨tok, _, rfl⟩ := List.mem_map.mp hr
            cases hp : parse_number tok <;> simp [hp]

lemma extract_inv (pages : List (List Char)) (years : List ℕ) :
    ∀ r ∈ extract_financial_lines pages years,
      (r.value.isSome = true ↔ r.confidence = "OK") := by
  intro r hr
  unfold extract_financial_lines at hr
  obtain ⟨pt, _, hr2⟩ := List.mem_flatMap.mp hr
  obtain ⟨ln, _, hr3⟩ := List.mem_flatMap.mp hr2
  exact processLine_inv ln years r hr3

lemma mem_replaceKey (k : String × YearV) (x : Record) :
    ∀ (l : List ((String × YearV) × Record)) (p),
      p ∈ replaceKey k x l → p ∈ l ∨ p = (k, x) := by
  intro l
  induction l with
  | nil => intro p hp; exact absurd hp (List.not_mem_nil p)
  | cons q rest ih =>
    obtain ⟨k', r'⟩ := q
    intro p hp
    unfold replaceKey at hp
    by_cases hk : k' = k
    · rw [if_pos hk] at hp
      rcases List.mem_cons.mp hp with rfl | h
      · right; rw [hk]
      · exact Or.inl (List.mem_cons_of_mem _ h)
    · rw [if_neg hk] at hp
      rcases List.mem_cons.mp hp with rfl | h
      · exact Or.inl (List.mem_cons_self _ _)
      · rcases ih p h with h2 | h2
        · exact Or.inl (List.mem_cons_of_mem _ h2)
        · exact Or.inr h2

lemma mem_dedupeAux (rs : List Record) :
    ∀ (best : List ((String × YearV) × Record)) (p),
      p ∈ dedupeAux rs best → p ∈ best ∨ p.2 ∈ rs := by
  induction rs with
  | nil => intro best p hp; exact Or.inl hp
  | cons r rs ih =>
    intro best p hp
    unfold dedupeAux at hp
    cases hl : lookupKey (keyOf r) best with
    | none =>
      rw [hl] at hp
      rcases ih _ p hp with h | h
      · rcases List.mem_append.mp h with h2 | h2
        · exact Or.inl h2
        · rw [List.mem_singleton] at h2
          subst h2
          exact Or.inr (List.mem_cons_self r rs)
      · exact Or.inr (List.mem_cons_of_mem _ h)
    | some b =>
      simp only [hl] at hp
      by_cases hlt : priorityOf r.confidence < priorityOf b.confidence
      · rw [if_pos hlt] at hp
        rcases ih _ p hp with h | h
        · rcases mem_replaceKey _ _ _ p h with h2 | h2
          · exact Or.inl h2
          · subst h2
            exact Or.inr (List.mem_cons_self r rs)
        · exact Or.inr (List.mem_cons_of_mem _ h)
      · rw [if_neg hlt] at hp
        rcases ih _ p hp with h | h
        · exact Or.inl h
        · exact Or.inr (List.mem_cons_of_mem _ h)

lemma dedup_subset (rs : List Record) :
    ∀ r ∈ deduplicate_results rs, r ∈ rs := by
  intro r hr
  unfold deduplicate_results at hr
  obtain ⟨p, hp, rfl⟩ := List.mem_map.mp hr
  rcases mem_dedupeAux rs [] p hp with h | h
  · exact absurd h (List.not_mem_nil p)
  · exact h

lemma mem_fill (results : List Record) (years : List ℕ) :
    ∀ r ∈ fill_missing_items results years,
      r ∈ results ∨ ∃ c y, r = mkMissing c y := by
  intro r hr
  unfold fill_missing_items at hr
  rcases List.mem_append.mp hr with h | h
  · exact Or.inl h
  · right
    obtain ⟨c, _, h2⟩ := List.mem_flatMap.mp h
    obtain ⟨y, _, rfl⟩ := List.mem_map.mp h2
    exact ⟨c, y, rfl⟩

lemma lookupKey_append (k : String × YearV) :
    ∀ l₁ l₂, lookupKey k (l₁ ++ l₂)
      = match lookupKey k l₁ with
        | some r => some r
        | none => lookupKey k l₂ := by
  intro l₁ l₂
  induction l₁ with
  | nil => rfl
  | cons q rest ih =>
    obtain ⟨k', r'⟩ := q
    by_cases hk : k' = k <;> simp [lookupKey, hk, ih]

lemma lookupKey_replace_self (k : String × YearV) (x : Record) :
    ∀ l, lookupKey k (replaceKey k x l) = (lookupKey k l).map (fun _ => x) := by
  intro l
  induction l with
  | nil => rfl
  | cons q rest ih =>
    obtain ⟨k', r'⟩ := q
    by_cases hk : k' = k
    · simp [replaceKey, lookupKey, hk]
    · simp [replaceKey, lookupKey, hk, ih]

lemma lookupKey_replace_ne (k k' : String × YearV) (x : Record)
    (hne : k' ≠ k) :
    ∀ l, lookupKey k (replaceKey k' x l) = lookupKey k l := by
  intro l
  induction l with
  | nil => rfl
  | cons q rest ih =>
    obtain ⟨k'', r''⟩ := q
    by_cases h1 : k'' = k'
    · subst h1
      simp [replaceKey, lookupKey, hne]
    · by_cases h2 : k'' = k
      · subst h2
        simp [replaceKey, lookupKey, h1]
      · simp [replaceKey, lookupKey, h1, h2, ih]

lemma lookupKey_none_iff (k : String × YearV) :
    ∀ l, lookupKey k l = none ↔ k ∉ l.map Prod.fst := by
  intro l
  induction l with
  | nil => simp [lookupKey]
  | cons q rest ih =>
    obtain ⟨k', r'⟩ := q
    by_cases hk : k' = k
    · subst hk
      simp [lookupKey]
    · rw [show lookupKey k ((k', r') :: rest) = lookupKey k rest from by
        simp [lookupKey, hk]]
      rw [ih, List.map_cons]
      constructor
      · intro h hmem
        rcases List.mem_cons.mp hmem with h2 | h2
        · exact hk h2.symm
        · exact h h2
      · intro h h2
        exact h (List.mem_cons_of_mem _ h2)

lemma replaceKey_map_fst (k : String × YearV) (x : Record) :
    ∀ l, (replaceKey k x l).map Prod.fst = l.map Prod.fst := by
  intro l
  induction l with
  | nil => rfl
  | cons q rest ih =>
    obtain ⟨k', r'⟩ := q
    by_cases hk : k' = k <;> simp [replaceKey, hk, ih]

lemma lookup_dedupeAux (k : String × YearV) :
    ∀ (rs : List Record) (best),
      lookupKey k (dedupeAux rs best)
        = match lookupKey k best with
          | some b =>
            some ((rs.filter (fun r => keyOf r = k)).foldl pickBetter b)
          | none =>
            match rs.filter (fun r => keyOf r = k) with
            | [] => none
            | r :: rest => some (rest.foldl pickBetter r) := by
  intro rs
  induction rs with
  | nil =>
    intro best
    cases h : lookupKey k best <;> simp [dedupeAux, h]
  | cons r rs ih =>
    intro best
    by_cases hkey : keyOf r = k
    · subst hkey
      rw [List.filter_cons_of_pos (by simp)]
      cases hl : lookupKey (keyOf r) best with
      | none =>
        simp only [dedupeAux, hl, ih]
        rw [lookupKey_append]
        simp [hl, lookupKey]
      | some b =>
        simp only [dedupeAux, hl]
        by_cases hlt : priorityOf r.confidence < priorityOf b.confidence
        · rw [if_pos hlt, ih, lookupKey_replace_self, hl]
          simp [List.foldl_cons, pickBetter, hlt]
        · rw [if_neg hlt, ih, hl]
          simp [List.foldl_cons, pickBetter, hlt]
    · rw [List.filter_cons_of_neg (by simpa using hkey)]
      cases hl : lookupKey (keyOf r) best with
      | none =>
        simp only [dedupeAux, hl, ih]
        rw [lookupKey_append]
        cases h2 : lookupKey k best with
        | none => simp [lookupKey, hkey]
        | some b2 => simp
      | some b =>
        simp only [dedupeAux, hl]
        by_cases hlt : priorityOf r.confidence < priorityOf b.confidence
        · rw [if_pos hlt, ih, lookupKey_replace_ne k (keyOf r) r hkey]
        · rw [if_neg hlt, ih]

lemma dedupeAux_consistent : ∀ (rs : List Record) (best),
    (∀ p ∈ best, keyOf p.2 = p.1) →
    ∀ p ∈ dedupeAux rs best, keyOf p.2 = p.1 := by
  intro rs
  induction rs with
  | nil => intro best hbest p hp; exact hbest p hp
  | cons r rs ih =>
    intro best hbest p hp
    unfold dedupeAux at hp
    cases hl : lookupKey (keyOf r) best with
    | none =>
      simp only [hl] at hp
      refine ih _ ?_ p hp
      intro q hq
      rcases List.mem_append.mp hq with h2 | h2
      · exact hbest q h2
      · rw [List.mem_singleton] at h2
        subst h2
        rfl
    | some b =>
      simp only [hl] at hp
      by_cases hlt : priorityOf r.confidence < priorityOf b.confidence
      · rw [if_pos hlt] at hp
        refine ih _ ?_ p hp
        intro q hq
        rcases mem_replaceKey _ _ _ q hq with h2 | h2
        · exact hbest q h2
        · subst h2; rfl
      · rw [if_neg hlt] at hp
        exact ih _ hbest p hp

lemma dedupeAux_keys_nodup : ∀ (rs : List Record) (best),
    ((best.map Prod.fst).Nodup) →
    ((dedupeAux rs best).map Prod.fst).Nodup := by
  intro rs
  induction rs with
  | nil => intro best h; exact h
  | cons r rs ih =>
    intro best hbest
    cases hl : lookupKey (keyOf r) best with
    | none =>
      simp only [dedupeAux, hl]
      refine ih _ ?_
      rw [List.map_append]
      rw [List.nodup_append]
      refine ⟨hbest, List.nodup_singleton _, ?_⟩
      intro a ha
      simp only [List.map_cons, List.map_nil, List.mem_singleton]
      intro hak
      subst hak
      exact (lookupKey_none_iff _ _).mp hl ha
    | some b =>
      simp only [dedupeAux, hl]
      by_cases hlt : priorityOf r.confidence < priorityOf b.confidence
      · rw [if_pos hlt]
        refine ih _ ?_
        rw [replaceKey_map_fst]
        exact hbest
      · rw [if_neg hlt]
        exact ih _ hbest

lemma filter_values_eq_lookup (k : String × YearV) :
    ∀ (assoc : List ((String × YearV) × Record)),
      (∀ p ∈ assoc, keyOf p.2 = p.1) → ((assoc.map Prod.fst).Nodup) →
      (assoc.map Prod.snd).filter (fun r => keyOf r = k)
        = (lookupKey k assoc).toList := by
  intro assoc
  induction assoc with
  | nil => intro _ _; rfl
  | cons q rest ih =>
    obtain ⟨k2, r2⟩ := q
    intro hcons hnd
    have hkr2 : keyOf r2 = k2 := hcons (k2, r2) (List.mem_cons_self _ _)
    have hnd2 : ((rest.map Prod.fst).Nodup) := (List.nodup_cons.mp hnd).2
    have hknotin : k2 ∉ rest.map Prod.fst := (List.nodup_cons.mp hnd).1
    by_cases hk : k2 = k
    · subst hk
      rw [List.map_cons, List.filter_cons_of_pos (by simp [hkr2]),
        show lookupKey k2 ((k2, r2) :: rest) = some r2 by simp [lookupKey]]
      have hrest : (rest.map Prod.snd).filter (fun r => keyOf r = k2) = [] := by
        rw [List.filter_eq_nil_iff]
        intro r hr
        obtain ⟨p, hp, rfl⟩ := List.mem_map.mp hr
        have : keyOf p.2 = p.1 := hcons p (List.mem_cons_of_mem _ hp)
        rw [this]
        simp only [decide_eq_true_eq]
        intro hpk
        subst hpk
        exact hknotin (List.mem_map.mpr ⟨p, hp, rfl⟩)
      rw [hrest]
      rfl
    · rw [List.map_cons, List.filter_cons_of_neg (by simp [hkr2, hk]),
        show lookupKey k ((k2, r2) :: rest) = lookupKey k rest by
          simp [lookupKey, hk]]
      exact ih (fun p hp => hcons p (List.mem_cons_of_mem _ hp)) hnd2

lemma dedup_filter_key (rs : List Record) (k : String × YearV) :
    (deduplicate_results rs).filter (fun r => keyOf r = k)
      = (lookupKey k (dedupeAux rs [])).toList := by
  unfold deduplicate_results
  exact filter_values_eq_lookup k _
    (dedupeAux_consistent rs [] (by intro p hp; exact absurd hp (List.not_mem_nil p)))
    (dedupeAux_keys_nodup rs [] List.nodup_nil)

/-- C5: for every candidate list and key, deduplication keeps exactly one
record for the key — the left fold of `pickBetter` (replace only on
strictly better confidence under OK < Low Confidence < Missing < Review
Required, ties keeping the earlier) over the key's candidates starting
from the first-seen one; in particular a `Missing` record followed by an
`OK` record for the same key leaves the `OK` record. -/
theorem c5_dedup_keeps_best :
    (∀ (rs : List Record) (k : String × YearV),
      (deduplicate_results rs).filter (fun r => keyOf r = k)
        = match rs.filter (fun r => keyOf r = k) with
          | [] => []
          | r :: rest => [rest.foldl pickBetter r])
  ∧ deduplicate_results
      [{ line_item := "Revenue", year := YearV.year 2022, value := none,
         confidence := "Missing" },
       { line_item := "Revenue", year := YearV.year 2022,
         value := some (500 : ℚ), confidence := "OK" }]
      = [{ line_item := "Revenue", year := YearV.year 2022,
           value := some (500 : ℚ), confidence := "OK" }] := by
  constructor
  · intro rs k
    rw [dedup_filter_key, lookup_dedupeAux]
    cases h : rs.filter (fun r => keyOf r = k) <;> simp [lookupKey, h]
  · decide

lemma aliasHit_iff (l : List Char) (as : List String) :
    aliasHit l as = true ↔ ∃ a ∈ as, isInfixL a.toList l = true := by
  simp [aliasHit, List.any_eq_true]

lemma aliasHit_false_iff (l : List Char) (as : List String) :
    aliasHit l as = false ↔ ∀ a ∈ as, isInfixL a.toList l = false := by
  rw [← Bool.not_eq_true, aliasHit_iff]
  push_neg
  constructor
  · intro h a ha
    rw [← Bool.not_eq_true]
    exact h a ha
  · intro h a ha
    rw [h a ha]
    exact Bool.noConfusion

lemma matchGo_eq_none (l : List Char) :
    ∀ t, matchGo l t = none ↔ ∀ p ∈ t, aliasHit l p.2 = false := by
  intro t
  induction t with
  | nil => simp [matchGo]
  | cons hd rest ih =>
    obtain ⟨c0, as0⟩ := hd
    by_cases h : aliasHit l as0 = true
    · rw [show matchGo l ((c0, as0) :: rest) = some c0 from by
        simp [matchGo, h]]
      constructor
      · intro hcon
        exact Option.noConfusion hcon
      · intro hall
        have := hall (c0, as0) (List.mem_cons_self _ _)
        rw [h] at this
        simp at this
    · have hfalse : aliasHit l as0 = false := by
        rwa [Bool.not_eq_true] at h
      rw [show matchGo l ((c0, as0) :: rest) = matchGo l rest from by
        simp [matchGo, hfalse]]
      rw [ih]
      constructor
      · intro hall p hp
        rcases List.mem_cons.mp hp with rfl | hp2
        · exact hfalse
        · exact hall p hp2
      · intro hall p hp
        exact hall p (List.mem_cons_of_mem _ hp)

lemma matchGo_eq_some (l : List Char) (c : String) :
    ∀ t, matchGo l t = some c ↔
      ∃ pre p suf, t = pre ++ p :: suf ∧ p.1 = c ∧ aliasHit l p.2 = true ∧
        ∀ q ∈ pre, aliasHit l q.2 = false := by
  intro t
  induction t with
  | nil =>
    constructor
    · intro hcon
      exact Option.noConfusion hcon
    · rintro ⟨pre, p, suf, heq, -, -, -⟩
      cases pre with
      | nil => exact List.noConfusion heq
      | cons q pre' => exact List.noConfusion heq
  | cons hd rest ih =>
    obtain ⟨c0, as0⟩ := hd
    by_cases h : aliasHit l as0 = true
    · rw [show matchGo l ((c0, as0) :: rest) = some c0 from by
        simp [matchGo, h]]
      constructor
      · intro he
        have hc0 : c0 = c := Option.some.inj he
        subst hc0
        exact ⟨[], (c0, as0), rest, rfl, rfl, h,
          fun q hq => absurd hq (List.not_mem_nil q)⟩
      · rintro ⟨pre, p, suf, heq, hpc, -, hpre⟩
        cases pre with
        | nil =>
          rw [List.nil_append] at heq
          have hp0 : (c0, as0) = p := (List.cons.inj heq).1
          rw [← hp0] at hpc
          rw [← hpc]
        | cons q pre' =>
          have h1 : (c0, as0) = q := (List.cons.inj heq).1
          have hqf := hpre q (List.mem_cons_self _ _)
          rw [← h1] at hqf
          rw [h] at hqf
          simp at hqf
    · have hfalse : aliasHit l as0 = false := by
        rwa [Bool.not_eq_true] at h
      rw [show matchGo l ((c0, as0) :: rest) = matchGo l rest from by
        simp [matchGo, hfalse]]
      rw [ih]
      constructor
      · rintro ⟨pre, p, suf, heq, hpc, hph, hpre⟩
        refine ⟨(c0, as0) :: pre, p, suf, by rw [heq]; rfl, hpc, hph, ?_⟩
        intro q hq
        rcases List.mem_cons.mp hq with rfl | hq2
        · exact hfalse
        · exact hpre q hq2
      · rintro ⟨pre, p, suf, heq, hpc, hph, hpre⟩
        cases pre with
        | nil =>
          rw [List.nil_append] at heq
          have hp0 : (c0, as0) = p := (List.cons.inj heq).1
          rw [← hp0] at hph
          rw [hph] at hfalse
          simp at hfalse
        | cons q pre' =>
          have h1 := List.cons.inj heq
          exact ⟨pre', p, suf, h1.2, hpc, hph,
            fun q' hq' => hpre q' (List.mem_cons_of_mem _ hq')⟩

/-- C7: the alias table lists the canonical items in the fixed
declaration order; `match_line_item` returns `none` iff no alias of any
canonical item is a substring of the line, and returns `some c` iff `c`
is the first-declared canonical item one of whose aliases is a substring
of the line (all earlier canonicals having no matching alias); in
particular the spec's example line resolves to Revenue. -/
theorem c7_match_priority :
    canonicalItems = ["Revenue", "Cost of Goods Sold", "Gross Profit",
      "Operating Expenses", "Research & Development", "Operating Income",
      "Interest Expense", "Profit Before Tax", "Tax Expense", "Net Income",
      "Depreciation & Amortization", "EBITDA"]
  ∧ (∀ l : List Char, match_line_item l = none ↔
      ∀ p ∈ LINE_ITEM_ALIASES, ∀ a ∈ p.2, isInfixL a.toList l = false)
  ∧ (∀ (l : List Char) (c : String), match_line_item l = some c ↔
      ∃ pre p suf, LINE_ITEM_ALIASES = pre ++ p :: suf ∧ p.1 = c ∧
        (∃ a ∈ p.2, isInfixL a.toList l = true) ∧
        ∀ q ∈ pre, ∀ a ∈ q.2, isInfixL a.toList l = false)
  ∧ match_line_item "total revenue and net sales 1,200".toList
      = some "Revenue" := by
  refine ⟨by decide, ?_, ?_, by decide⟩
  · intro l
    rw [show match_line_item l = matchGo l LINE_ITEM_ALIASES from rfl,
      matchGo_eq_none]
    constructor
    · intro hall p hp a hap
      exact (aliasHit_false_iff l p.2).mp (hall p hp) a hap
    · intro hall p hp
      exact (aliasHit_false_iff l p.2).mpr (hall p hp)
  · intro l c
    rw [show match_line_item l = matchGo l LINE_ITEM_ALIASES from rfl,
      matchGo_eq_some]
    constructor
    · rintro ⟨pre, p, suf, heq, hpc, hph, hpre⟩
      exact ⟨pre, p, suf, heq, hpc, (aliasHit_iff l p.2).mp hph,
        fun q hq a ha => (aliasHit_false_iff l q.2).mp (hpre q hq) a ha⟩
    · rintro ⟨pre, p, suf, heq, hpc, hph, hpre⟩
      exact ⟨pre, p, suf, heq, hpc, (aliasHit_iff l p.2).mpr hph,
        fun q hq => (aliasHit_false_iff l q.2).mpr (hpre q hq)⟩

/-- C10: in every record the full pipeline produces, the value is present
iff the confidence tag is `OK`; `Low Confidence` and `Missing` records
always carry an absent value. -/
theorem c10_value_iff_ok (pages : List (List Char)) (years : List ℕ)
    (r : Record) (hr : r ∈ pipeline pages years) :
    r.value.isSome = true ↔ r.confidence = "OK" := by
  rcases mem_fill _ _ r hr with h | ⟨c, y, rfl⟩
  · exact extract_inv pages years r (dedup_subset _ r h)
  · simp [mkMissing]

lemma canonicalItems_nodup : canonicalItems.Nodup := by decide

lemma yearsToUse_nodup {years : List ℕ} (h : years.Nodup) :
    (yearsToUse years).Nodup := by
  unfold yearsToUse
  split
  · exact List.nodup_singleton _
  · exact h.map (fun a b hab => YearV.year.inj hab)

lemma yearsToUse_ne_nil (years : List ℕ) : yearsToUse years ≠ [] := by
  cases years with
  | nil => simp [yearsToUse]
  | cons y ys => simp [yearsToUse]

lemma dedup_map_keyOf (rs : List Record) :
    ((deduplicate_results rs).map keyOf).Nodup := by
  unfold deduplicate_results
  rw [List.map_map]
  have h1 : List.map (keyOf ∘ Prod.snd) (dedupeAux rs [])
      = List.map Prod.fst (dedupeAux rs []) :=
    List.map_congr_left
      (fun p hp => dedupeAux_consistent rs []
        (by intro q hq; exact absurd hq (List.not_mem_nil q)) p hp)
  rw [h1]
  exact dedupeAux_keys_nodup rs [] List.nodup_nil

lemma fill_keys_nodup (results : List Record) (years : List ℕ)
    (hres : ((results.map keyOf).Nodup)) (hnd : years.Nodup) :
    (((fill_missing_items results years).map keyOf).Nodup) := by
  have heq : ((canonicalItems.filter
        (fun c => !(results.map Record.line_item).contains c)).flatMap
        (fun c => (yearsToUse years).map (fun yr => mkMissing c yr))).map keyOf
      = (canonicalItems.filter
          (fun c => !(results.map Record.line_item).contains c))
        ×ˢ yearsToUse years := by
    rw [List.map_flatMap]
    simp only [List.map_map]
    rfl
  unfold fill_missing_items
  rw [List.map_append, List.nodup_append]
  refine ⟨hres, ?_, ?_⟩
  · rw [heq]
    exact List.Nodup.product (canonicalItems_nodup.filter _)
      (yearsToUse_nodup hnd)
  · intro a ha hb
    obtain ⟨r, hr, rfl⟩ := List.mem_map.mp ha
    obtain ⟨m, hm, hma⟩ := List.mem_map.mp hb
    obtain ⟨c, hcf, hm2⟩ := List.mem_flatMap.mp hm
    obtain ⟨y, _, rfl⟩ := List.mem_map.mp hm2
    have hc : c = r.line_item := congrArg Prod.fst hma
    have hq := (List.mem_filter.mp hcf).2
    rw [hc, Bool.not_eq_true'] at hq
    have hmem : r.line_item ∈ results.map Record.line_item :=
      List.mem_map.mpr ⟨r, hr, rfl⟩
    have hct : (results.map Record.line_item).contains r.line_item = true :=
      List.elem_iff.mpr hmem
    rw [hct] at hq
    exact Bool.noConfusion hq

lemma fill_covers (results : List Record) (years : List ℕ) :
    ∀ c ∈ canonicalItems,
      ∃ r ∈ fill_missing_items results years, r.line_item = c := by
  intro c hc
  by_cases hmem : c ∈ results.map Record.line_item
  · obtain ⟨r, hr, rfl⟩ := List.mem_map.mp hmem
    exact ⟨r, List.mem_append_left _ hr, rfl⟩
  · obtain ⟨y, hy⟩ := List.exists_mem_of_ne_nil _ (yearsToUse_ne_nil years)
    refine ⟨mkMissing c y, List.mem_append_right _ ?_, rfl⟩
    refine List.mem_flatMap.mpr ⟨c, ?_, List.mem_map.mpr ⟨y, hy, rfl⟩⟩
    refine List.mem_filter.mpr ⟨hc, ?_⟩
    rw [Bool.not_eq_true']
    cases h2 : (results.map Record.line_item).contains c with
    | false => rfl
    | true => exact absurd (List.elem_iff.mp h2) hmem

lemma fill_placeholder (results : List Record) (years : List ℕ) :
    ∀ c ∈ canonicalItems, c ∉ results.map Record.line_item →
      ∀ y ∈ yearsToUse years,
        mkMissing c y ∈ fill_missing_items results years := by
  intro c hc hmem y hy
  refine List.mem_append_right _ ?_
  refine List.mem_flatMap.mpr ⟨c, ?_, List.mem_map.mpr ⟨y, hy, rfl⟩⟩
  refine List.mem_filter.mpr ⟨hc, ?_⟩
  rw [Bool.not_eq_true']
  cases h2 : (results.map Record.line_item).contains c with
  | false => rfl
  | true => exact absurd (List.elem_iff.mp h2) hmem

/-- C1 amended: for year sets without duplicates (as `detect_years`
produces), the final record set has at most one record per
(line item, year) key; every canonical item appears in it; and a
canonical item with no extracted record at all gets exactly the
placeholder records — one `Missing` record per detected year (or the
single `Unknown` year when the year set is empty).  Per-year coverage
for items that were extracted — the part the counterexample refutes — is
not guaranteed. -/
theorem c1_coverage_amended (pages : List (List Char)) (years : List ℕ)
    (hnd : years.Nodup) :
    (((pipeline pages years).map keyOf).Nodup)
  ∧ (∀ c ∈ canonicalItems, ∃ r ∈ pipeline pages years, r.line_item = c)
  ∧ (∀ c ∈ canonicalItems,
      c ∉ (deduplicate_results (extract_financial_lines pages years)).map
          Record.line_item →
      ∀ y ∈ yearsToUse years, mkMissing c y ∈ pipeline pages years) :=
  ⟨fill_keys_nodup _ years (dedup_map_keyOf _) hnd,
   fill_covers _ years,
   fill_placeholder _ years⟩

/-- Witness for C1's amended theorem at a concrete run. -/
theorem c1_coverage_amended_witness :
    ((pipeline ["Revenue 500".toList] [2021]).map keyOf).Nodup :=
  (c1_coverage_amended ["Revenue 500".toList] [2021] (by decide)).1

/-- C9: the currency component equals the first-match scan over the
lowercased joined document text: it is `USD` iff the USD keyword set
hits; each later currency is reported iff its set hits and every
higher-priority set misses; `Unclear` iff none hits.  A text containing
both a pound sign and `usd` yields the higher-priority `USD`. -/
theorem c9_currency_priority :
    (∀ pages : List (List Char),
      (detect_currency pages).1 = detectCurrencyStr (toLowerL (joinSpace pages)))
  ∧ (∀ combined : List Char,
      (detectCurrencyStr combined = "USD" ↔ usdHit combined = true)
      ∧ (detectCurrencyStr combined = "INR" ↔
          usdHit combined = false ∧ inrHit combined = true)
      ∧ (detectCurrencyStr combined = "EUR" ↔
          usdHit combined = false ∧ inrHit combined = false
            ∧ eurHit combined = true)
      ∧ (detectCurrencyStr combined = "GBP" ↔
          usdHit combined = false ∧ inrHit combined = false
            ∧ eurHit combined = false ∧ gbpHit combined = true)
      ∧ (detectCurrencyStr combined = "CNY" ↔
          usdHit combined = false ∧ inrHit combined = false
            ∧ eurHit combined = false ∧ gbpHit combined = false
            ∧ cnyHit combined = true)
      ∧ (detectCurrencyStr combined = "Unclear" ↔
          usdHit combined = false ∧ inrHit combined = false
            ∧ eurHit combined = false ∧ gbpHit combined = false
            ∧ cnyHit combined = false))
  ∧ (detect_currency ["£ 100 usd".toList]).1 = "USD" := by
  refine ⟨fun pages => rfl, ?_, by decide⟩
  intro combined
  cases h1 : usdHit combined <;> cases h2 : inrHit combined <;>
    cases h3 : eurHit combined <;> cases h4 : gbpHit combined <;>
    cases h5 : cnyHit combined <;>
    simp [detectCurrencyStr, h1, h2, h3, h4, h5]

/-- Modeled from the spec (§4.2 plus the cap): scan for all boundary-
delimited `19xx`/`20xx` matches, deduplicate, filter to `[1990, 2030]`,
sort ascending, retain only the 5 largest values.  Reference definition
for C4, composed in the spec's wording rather than the code's. -/
def specDetectedYears (pages : List (List Char)) : List ℕ :=
  ((List.insertionSort (fun a b => a ≤ b)
      (((collectYears (joinSpace pages)).dedup).filter
        (fun y => 1990 ≤ y && y ≤ 2030))).reverse.take 5).reverse

lemma capYears_eq_rtake {l : List ℕ}
    (hs : List.Sorted (fun a b => a ≤ b) l) :
    capYears l = (l.reverse.take 5).reverse := by
  unfold capYears
  by_cases h : l.isEmpty
  · rw [if_pos h, List.isEmpty_iff.mp h]
    rfl
  · rw [if_neg h, List.Sorted.insertionSort_eq hs,
      show (l.reverse.take 5).reverse = l.rtake 5 from
        (List.rtake_eq_reverse_take_reverse l 5).symm]
    rfl

/-- C4: the composed fiscal-year detection step (pattern scan in
`detect_years`, dedup + ascending sort, range filter, and the
keep-5-most-recent cap applied in `upload`) agrees on every input with
the spec's description — matches, deduplicated, filtered to
`[1990, 2030]`, sorted ascending, the 5 largest retained — and on the
spec's example text it returns exactly the 5 most recent years. -/
theorem c4_year_detection :
    (∀ pages : List (List Char), detectedYears pages = specDetectedYears pages)
  ∧ detectedYears ["1998 2001 2005 2010 2015 2020".toList]
      = [2001, 2005, 2010, 2015, 2020] := by
  constructor
  · intro pages
    have hA_sorted : List.Sorted (fun a b => a ≤ b) (detect_years pages) :=
      (List.sorted_insertionSort _ _).filter _
    have hA_nodup : (detect_years pages).Nodup :=
      (((List.perm_insertionSort _ _).nodup_iff).mpr
        (List.nodup_dedup _)).filter _
    have hB_sorted : List.Sorted (fun a b => a ≤ b)
        (List.insertionSort (fun a b => a ≤ b)
          (((collectYears (joinSpace pages)).dedup).filter
            (fun y => 1990 ≤ y && y ≤ 2030))) :=
      List.sorted_insertionSort _ _
    have hB_nodup :
        (List.insertionSort (fun a b => a ≤ b)
          (((collectYears (joinSpace pages)).dedup).filter
            (fun y => 1990 ≤ y && y ≤ 2030))).Nodup :=
      ((List.perm_insertionSort _ _).nodup_iff).mpr
        ((List.nodup_dedup _).filter _)
    have hmem : ∀ a, a ∈ detect_years pages ↔
        a ∈ List.insertionSort (fun a b => a ≤ b)
          (((collectYears (joinSpace pages)).dedup).filter
            (fun y => 1990 ≤ y && y ≤ 2030)) := by
      intro a
      unfold detect_years pySortedSet
      simp [List.mem_filter, List.mem_insertionSort, List.mem_dedup]
    have hAB : detect_years pages
        = List.insertionSort (fun a b => a ≤ b)
          (((collectYears (joinSpace pages)).dedup).filter
            (fun y => 1990 ≤ y && y ≤ 2030)) :=
      List.eq_of_perm_of_sorted
        ((List.perm_ext_iff_of_nodup hA_nodup hB_nodup).mpr hmem)
        hA_sorted hB_sorted
    rw [show detectedYears pages = capYears (detect_years pages) from rfl,
      capYears_eq_rtake hA_sorted, hAB]
    rfl
  · decide

/-- Witness for C10 at a concrete run and record. -/
theorem c10_value_iff_ok_witness :
    ({ line_item := "Revenue", year := YearV.unknown, value := some (500 : ℚ),
       confidence := "OK" } : Record).value.isSome = true
      ↔ ({ line_item := "Revenue", year := YearV.unknown,
           value := some (500 : ℚ), confidence := "OK" } : Record).confidence
          = "OK" :=
  c10_value_iff_ok ["Revenue 500".toList] []
    { line_item := "Revenue", year := YearV.unknown, value := some (500 : ℚ),
      confidence := "OK" } (by decide)

end App
